import Mathlib

set_option maxRecDepth 8000

/-!
Shallow embedding of the BitShard SDK threshold-ECDSA core
(`src/crypto/elliptic.ts`, `src/crypto/addresses.ts`, `src/core/DKLSService.ts`,
`src/core/DKLSParty.ts`, `src/protocols/presignature.ts`, `src/BitShardSDK.ts`),
together with proofs of the specification's claims about it.

Machine integers do not occur: the source works on JavaScript `bigint`
values, modelled as `Nat` with explicit `% p` where the source reduces.
Hex strings carrying byte data are modelled at byte granularity as
`List Nat` (one entry per byte, each < 256); a 33-byte compressed key is
modelled as its prefix byte and its 256-bit x value, since the source's
length-66 hex check makes exactly those shapes reachable.  Fallible code
returns `Except`.
-/

namespace BitShard

/-- The secp256k1 field prime `p = 2^256 - 2^32 - 977`
(`src/crypto/elliptic.ts` line 23). -/
def P : Nat := 2 ^ 256 - 2 ^ 32 - 977

/-- Errors thrown by the elliptic-curve helpers in `src/crypto/elliptic.ts`.
Each constructor corresponds to one `throw new Error(...)` site. -/
inductive EllipticError
  /-- thrown when the compressed hex input is not 66 chars -/
  | invalidLength
  /-- thrown when the compressed key's first byte is not 02 or 03 -/
  | invalidPrefix
  /-- thrown when `modSqrt` returns null (spec name: `PointInvalid`) -/
  | pointInvalid
  /-- thrown by `modSqrt` when the modulus is not 3 mod 4 -/
  | unsupportedPrime
  /-- thrown by `getUncompressedPublicKey` on an unrecognised length -/
  | invalidFormat
deriving DecidableEq

/-- One pass of the `while (exp > 0n)` loop in `modPow`
(`src/crypto/elliptic.ts` lines 57-70), with explicit fuel.  Each
iteration multiplies `result` by `base` when the current exponent bit is
set, then squares `base` and halves `exp`, exactly as the source does.
The fuel only bounds the iteration count; 257 iterations always drive a
`< 2^257` exponent to zero, so the fuel case is unreachable in use. -/
def modPowLoop (md : Nat) : Nat → Nat → Nat → Nat → Nat
  | 0, _, _, result => result
  | fuel + 1, base, exp, result =>
      if exp = 0 then result
      else
        modPowLoop md fuel ((base * base) % md) (exp / 2)
          (if exp % 2 = 1 then (result * base) % md else result)

/-- Modular exponentiation `(base^exp) % mod` by square-and-multiply
(`src/crypto/elliptic.ts` lines 57-70).  The source first reduces
`base = base % mod`, then runs the loop with `result = 1`. -/
def modPow (base exp md : Nat) : Nat :=
  modPowLoop md 257 (base % md) exp 1

/-- Modular square root (`src/crypto/elliptic.ts` lines 76-90): Euler's
criterion first (`a^((p-1)/2) mod p ≠ 1` means no root, returning null,
modelled as `.ok none`), then the `p ≡ 3 (mod 4)` shortcut
`a^((p+1)/4) mod p`; any other modulus throws. -/
def modSqrt (a p : Nat) : Except EllipticError (Option Nat) :=
  if modPow a ((p - 1) / 2) p ≠ 1 then .ok none
  else if p % 4 = 3 then .ok (some (modPow a ((p + 1) / 4) p))
  else .error .unsupportedPrime

/-- The right-hand side `y² = x³ + a·x + b (mod p)` computed by
`decompressPublicKey` (`src/crypto/elliptic.ts` lines 27-30) with
`a = 0`, `b = 7`: `x3 = modPow(x, 3, p)`, `ax = (a·x) % p`,
`y2 = (x3 + ax + b) % p`. -/
def alphaOf (x : Nat) : Nat := (modPow x 3 P + (0 * x) % P + 7) % P

/-- Decompression of a compressed public key
(`src/crypto/elliptic.ts` lines 6-52).  The 66-hex-char input is
modelled as its prefix byte `pre` and its 32-byte big-endian x value
`x < 2^256`; the source's length check admits exactly these shapes.
After the prefix check the source computes `y² = x³ + 0·x + 7 (mod p)`
with no range check on `x`, takes the square root, and flips `y` to
`p - y` when its parity disagrees with the prefix. -/
def decompressPublicKey (pre x : Nat) : Except EllipticError (Nat × Nat) :=
  if pre ≠ 2 ∧ pre ≠ 3 then .error .invalidPrefix
  else
    match modSqrt (alphaOf x) P with
    | .error e => .error e
    | .ok none => .error .pointInvalid
    | .ok (some y0) =>
        let isEven : Bool := y0 % 2 == 0
        let shouldBeEven : Bool := pre == 2
        .ok (x, if isEven != shouldBeEven then P - y0 else y0)

/-! ### Specification of the modular-exponentiation loop -/

theorem modPowLoop_spec (md : Nat) (hmd : 1 < md) :
    ∀ fuel exp, exp < 2 ^ fuel → ∀ base result, result < md →
      modPowLoop md fuel base exp result = (result * base ^ exp) % md := by
  intro fuel
  induction fuel with
  | zero =>
      intro exp hexp base result hres
      interval_cases exp
      simp [modPowLoop, Nat.mod_eq_of_lt hres]
  | succ n ih =>
      intro exp hexp base result hres
      by_cases h0 : exp = 0
      · subst h0
        simp [modPowLoop, Nat.mod_eq_of_lt hres]
      · have hdiv : exp / 2 < 2 ^ n := by
          have h2 : 2 ^ (n + 1) = 2 ^ n * 2 := by ring
          omega
        have hres' : (if exp % 2 = 1 then (result * base) % md else result) < md := by
          split
          · exact Nat.mod_lt _ (by omega)
          · exact hres
        rw [modPowLoop, if_neg h0,
          ih (exp / 2) hdiv ((base * base) % md) _ hres']
        have hsplit : exp = 2 * (exp / 2) + exp % 2 := (Nat.div_add_mod exp 2).symm
        have hpowc : ((base * base) % md) ^ (exp / 2) ≡ (base * base) ^ (exp / 2) [MOD md] :=
          (Nat.ModEq.pow _ (Nat.mod_modEq (base * base) md))
        by_cases hb : exp % 2 = 1
        · rw [if_pos hb]
          have h1 : (result * base) % md * ((base * base) % md) ^ (exp / 2) ≡
              result * base ^ exp [MOD md] := by
            calc (result * base) % md * ((base * base) % md) ^ (exp / 2)
                ≡ (result * base) * ((base * base) ^ (exp / 2)) [MOD md] :=
                  Nat.ModEq.mul (Nat.mod_modEq _ md) hpowc
              _ = result * base ^ (2 * (exp / 2) + 1) := by
                  rw [pow_succ, pow_mul]; ring
              _ = result * base ^ exp := by
                  have he : 2 * (exp / 2) + 1 = exp := by omega
                  rw [he]
          exact h1
        · rw [if_neg hb]
          have hb0 : exp % 2 = 0 := by omega
          have h1 : result * ((base * base) % md) ^ (exp / 2) ≡
              result * base ^ exp [MOD md] := by
            calc result * ((base * base) % md) ^ (exp / 2)
                ≡ result * ((base * base) ^ (exp / 2)) [MOD md] :=
                  Nat.ModEq.mul (Nat.ModEq.refl _) hpowc
              _ = result * base ^ (2 * (exp / 2)) := by rw [pow_mul]; ring_nf
              _ = result * base ^ exp := by
                  have he : 2 * (exp / 2) = exp := by omega
                  rw [he]
          exact h1

theorem modPow_spec (base exp md : Nat) (hmd : 1 < md) (hexp : exp < 2 ^ 257) :
    modPow base exp md = base ^ exp % md := by
  rw [modPow, modPowLoop_spec md hmd 257 exp hexp (base % md) 1 (by omega),
    one_mul, ← Nat.pow_mod]

theorem modPowLoop_lt (md : Nat) (hmd : 0 < md) :
    ∀ fuel base exp result, result < md →
      modPowLoop md fuel base exp result < md := by
  intro fuel
  induction fuel with
  | zero => intro base exp result h; simpa [modPowLoop] using h
  | succ n ih =>
      intro base exp result h
      rw [modPowLoop]
      split
      · exact h
      · apply ih
        split
        · exact Nat.mod_lt _ hmd
        · exact h

theorem modPow_lt (base exp md : Nat) (hmd : 1 < md) : modPow base exp md < md :=
  modPowLoop_lt md (by omega) 257 (base % md) exp 1 (by omega)

/-- Ground evaluation: the Euler-criterion exponentiation of zero is zero. -/
theorem modPow_zero_half : modPow 0 ((P - 1) / 2) P = 0 := by decide

/-- The source's entry reduction `base = base % mod` makes `modPow`
invariant under pre-reducing the base. -/
theorem modPow_mod_base (x e md : Nat) : modPow (x % md) e md = modPow x e md := by
  rw [modPow, modPow, Nat.mod_mod_of_dvd _ (dvd_refl md)]

attribute [irreducible] modPow

/-! ### Arithmetic facts about the secp256k1 prime -/

theorem one_lt_P : 1 < P := by decide

theorem P_mod_two : P % 2 = 1 := by decide

theorem P_mod_four : P % 4 = 3 := by decide

theorem P_exp_double : (P + 1) / 4 * 2 = (P + 1) / 2 := by decide

theorem P_exp_succ : (P + 1) / 2 = (P - 1) / 2 + 1 := by decide

theorem P_exp_half_lt : (P - 1) / 2 < 2 ^ 257 := by decide

theorem P_exp_quarter_lt : (P + 1) / 4 < 2 ^ 257 := by decide

theorem P_exp_half_ne_zero : (P - 1) / 2 ≠ 0 := by decide

theorem three_lt_two_pow : (3 : Nat) < 2 ^ 257 := by decide

theorem alphaOf_eq (x : Nat) : alphaOf x = (modPow x 3 P + 7) % P := by
  simp [alphaOf]

theorem alphaOf_lt (x : Nat) : alphaOf x < P :=
  Nat.mod_lt _ (by have := one_lt_P; omega)

/-- When the Euler-criterion check in `modSqrt` passes, the candidate
root `a^((p+1)/4) mod p` really squares back to `a`: pure exponent
arithmetic, using `(p+1)/2 = (p-1)/2 + 1` and the passed check. -/
theorem sq_root_sq {a : Nat} (ha : a < P)
    (hleg : modPow a ((P - 1) / 2) P = 1) :
    modPow a ((P + 1) / 4) P * modPow a ((P + 1) / 4) P % P = a := by
  rw [modPow_spec a ((P + 1) / 4) P one_lt_P P_exp_quarter_lt]
  rw [modPow_spec a ((P - 1) / 2) P one_lt_P P_exp_half_lt] at hleg
  calc a ^ ((P + 1) / 4) % P * (a ^ ((P + 1) / 4) % P) % P
      = a ^ ((P + 1) / 4) * a ^ ((P + 1) / 4) % P := by rw [← Nat.mul_mod]
    _ = a ^ ((P + 1) / 4 * 2) % P := by rw [pow_mul, pow_two]
    _ = a ^ ((P - 1) / 2 + 1) % P := by rw [P_exp_double, P_exp_succ]
    _ = a ^ ((P - 1) / 2) % P * (a % P) % P := by rw [pow_succ, Nat.mul_mod]
    _ = a % P := by rw [hleg, one_mul, Nat.mod_mod_of_dvd a (dvd_refl P)]
    _ = a := Nat.mod_eq_of_lt ha

/-- Squaring is invariant under `b ↦ p - b` modulo `p`. -/
theorem sub_sq_mod {b : Nat} (hb : b ≤ P) :
    (P - b) * (P - b) % P = b * b % P := by
  have h : (P - b) * (P - b) ≡ b * b [MOD P] := by
    rw [Nat.modEq_iff_dvd]
    rw [Nat.cast_mul, Nat.cast_mul, Nat.cast_sub hb]
    exact ⟨2 * (b : Int) - P, by ring⟩
  exact h

/-- Inversion of a successful decompression: the prefix was valid, the
returned x is the input x, the Euler-criterion check passed, the
returned y squares to `x³ + 7 (mod p)`, and its parity encodes the
prefix. -/
theorem decompress_ok {pre x x' y' : Nat}
    (h : decompressPublicKey pre x = .ok (x', y')) :
    (pre = 2 ∨ pre = 3) ∧ x' = x ∧
    modPow (alphaOf x) ((P - 1) / 2) P = 1 ∧
    y' * y' % P = alphaOf x ∧
    0 < y' ∧ y' < P ∧ (y' % 2 = 0 ↔ pre = 2) := by
  by_cases hpre : pre ≠ 2 ∧ pre ≠ 3
  · rw [decompressPublicKey, if_pos hpre] at h
    exact absurd h (by simp)
  · have hpre2 : pre = 2 ∨ pre = 3 := by tauto
    rw [decompressPublicKey, if_neg hpre, modSqrt] at h
    set L := modPow (alphaOf x) ((P - 1) / 2) P with hLdef
    set β := modPow (alphaOf x) ((P + 1) / 4) P with hBdef
    by_cases hleg : L = 1
    · rw [if_neg (not_not_intro hleg), if_pos P_mod_four] at h
      simp only [Except.ok.injEq, Prod.mk.injEq] at h
      obtain ⟨hx, hy⟩ := h
      have hβlt : β < P := by rw [hBdef]; exact modPow_lt _ _ _ one_lt_P
      have hβsq : β * β % P = alphaOf x := by
        rw [hBdef]
        exact sq_root_sq (alphaOf_lt x) (hLdef.symm.trans hleg)
      have hβpos : 0 < β := by
        rcases Nat.eq_zero_or_pos β with h0 | hp
        · exfalso
          rw [h0] at hβsq
          simp only [Nat.zero_mul, Nat.zero_mod] at hβsq
          have hcon : modPow (alphaOf x) ((P - 1) / 2) P = 1 :=
            hLdef.symm.trans hleg
          rw [← hβsq, modPow_zero_half] at hcon
          exact absurd hcon (by omega)
        · exact hp
      have hPodd := P_mod_two
      refine ⟨hpre2, hx.symm, hLdef.symm.trans hleg, ?_, ?_, ?_, ?_⟩
      · rw [← hy]
        split
        · rw [sub_sq_mod (le_of_lt hβlt)]
          exact hβsq
        · exact hβsq
      · rw [← hy]; split <;> omega
      · rw [← hy]; split <;> omega
      · rw [← hy]
        rcases hpre2 with h2 | h3
        · subst h2
          by_cases hev : β % 2 = 0
          · rw [if_neg (by simp [hev])]
            simp [hev]
          · rw [if_pos (by simp [hev])]
            constructor
            · intro _; rfl
            · intro _; omega
        · subst h3
          by_cases hev : β % 2 = 0
          · rw [if_pos (by simp [hev])]
            constructor
            · intro hcon; omega
            · intro hcon; omega
          · rw [if_neg (by simp [hev])]
            constructor
            · intro hcon; omega
            · intro hcon; omega

    · rw [if_pos hleg] at h
      simp at h

/-- Evaluation of the success path of `decompressPublicKey`: with a
valid prefix and a passing Euler check, the result is the
parity-adjusted candidate root. -/
theorem decompress_eval {pre x : Nat} (hpre : ¬(pre ≠ 2 ∧ pre ≠ 3))
    (hleg : modPow (alphaOf x) ((P - 1) / 2) P = 1) :
    decompressPublicKey pre x =
      .ok (x, if ((modPow (alphaOf x) ((P + 1) / 4) P % 2 == 0) != (pre == 2))
          then P - modPow (alphaOf x) ((P + 1) / 4) P
          else modPow (alphaOf x) ((P + 1) / 4) P) := by
  rw [decompressPublicKey, if_neg hpre, modSqrt, if_neg (not_not_intro hleg),
    if_pos P_mod_four]

theorem alphaOf_mod (x : Nat) : alphaOf (x % P) = alphaOf x := by
  rw [alphaOf, alphaOf, modPow_mod_base]
  simp

/-- The x coordinate of the secp256k1 base point G. -/
def secpGx : Nat :=
  0x79BE667EF9DCBBAC55A06295CE870B07029BFCDB2DCE28D959F2815B16F81798

/-- The y coordinate of the secp256k1 base point G (even). -/
def secpGy : Nat :=
  0x483ADA7726A3C4655DA4FBFC0E1108A8FD17B448A68554199C47D08FFB10D4B8

/-- C4: for every compressed input with a valid prefix byte, if
`α = x³ + 7 mod p` fails the quadratic-residue check (the source's
Euler-criterion test, which for the prime p is exactly
quadratic-residuosity) then decompression fails with `PointInvalid`;
and whenever decompression succeeds the returned y satisfies
`y² ≡ x³ + 7 (mod p)` and its parity matches the prefix: even for 02,
odd for 03. -/
theorem c4_decompress_correct :
    (∀ pre x : Nat, (pre = 2 ∨ pre = 3) →
      modPow (alphaOf x) ((P - 1) / 2) P ≠ 1 →
      decompressPublicKey pre x = .error .pointInvalid) ∧
    (∀ pre x x' y' : Nat, decompressPublicKey pre x = .ok (x', y') →
      y' * y' % P = (modPow x 3 P + 7) % P ∧
      (pre = 2 → y' % 2 = 0) ∧ (pre = 3 → y' % 2 = 1)) := by
  constructor
  · intro pre x hpre hleg
    rw [decompressPublicKey, if_neg (by tauto), modSqrt, if_pos hleg]
  · intro pre x x' y' h
    obtain ⟨hpre2, hx, hleg, hsq, hpos, hlt, hpar⟩ := decompress_ok h
    rw [alphaOf_eq] at hsq
    refine ⟨hsq, fun h2 => hpar.mpr h2, fun h3 => ?_⟩
    subst h3
    have hne : ¬(y' % 2 = 0) := fun hc => by simpa using hpar.mp hc
    omega

attribute [local semireducible] modPow in
theorem c4_decompress_correct_witness :
    decompressPublicKey 2 5 = .error .pointInvalid ∧
    (secpGy * secpGy % P = (modPow secpGx 3 P + 7) % P ∧
      (2 = 2 → secpGy % 2 = 0) ∧ (2 = 3 → secpGy % 2 = 1)) :=
  ⟨c4_decompress_correct.1 2 5 (Or.inl rfl) (by decide),
   c4_decompress_correct.2 2 secpGx secpGx secpGy (by rfl)⟩

attribute [local semireducible] modPow in
/-- C5 counterexample: the claim says every compressed input with
`x ≥ p` is rejected with `PointInvalid` before any square root is
computed, but `decompressPublicKey` has no such range check: the input
with prefix 02 and `x = p + 1` (which exceeds the field prime) is
accepted, returning a square root of `(p+1)³ + 7 ≡ 8 (mod p)`. -/
theorem c5_counterexample :
    P ≤ P + 1 ∧
    decompressPublicKey 2 (P + 1) =
      .ok (P + 1,
        29896722852569046015560700294576055776214335159245303116488692907525646231534) :=
  ⟨by omega, by rfl⟩

/-- C5 amended: `decompressPublicKey` performs no `x ≥ p` range check;
an out-of-range x is implicitly reduced modulo p by the arithmetic, so
the computation succeeds or fails exactly as it does for `x mod p`, and
on success returns the same y (only the echoed x differs). -/
theorem c5_no_range_check (pre x : Nat) :
    Except.map Prod.snd (decompressPublicKey pre x) =
      Except.map Prod.snd (decompressPublicKey pre (x % P)) := by
  rw [decompressPublicKey, decompressPublicKey, alphaOf_mod]
  by_cases hpre : pre ≠ 2 ∧ pre ≠ 3
  · rw [if_pos hpre, if_pos hpre]
  · rw [if_neg hpre, if_neg hpre]
    cases hm : modSqrt (alphaOf x) P with
    | error e => rfl
    | ok o => cases o <;> rfl

/-! ### Wire frames and message routing -/

/-- A DKLS wire frame (`src/core/types.ts`, `WireMessage`): sender id,
optional recipient id (`undefined` means broadcast, modelled `none`),
and an opaque payload (base64 string in the source, bytes here). -/
structure WireMessage where
  from_id : Nat
  to_id : Option Nat
  payload : List Nat
deriving DecidableEq

/-- Model of `DKLSService.filterMessages` (`src/core/DKLSService.ts` lines
379-381): the broadcast selection keeps every message whose `from_id`
differs from the party.  It does not inspect `to_id`.  The source's
`m.clone()` is the identity on the modelled value. -/
def filterMessages (msgs : List WireMessage) (party : Nat) : List WireMessage :=
  msgs.filter (fun m => m.from_id != party)

/-- Model of `DKLSService.selectMessages` (`src/core/DKLSService.ts` lines
386-388): the P2P selection keeps every message whose `to_id` equals
the party.  It does not inspect `from_id`. -/
def selectMessages (msgs : List WireMessage) (party : Nat) : List WireMessage :=
  msgs.filter (fun m => m.to_id == some party)

/-- Model of `DKLSParty.filterIncomingMessages` (`src/core/DKLSParty.ts` lines
535-542): keeps broadcast messages and P2P messages addressed to this
party, then drops the party's own messages. -/
def filterIncomingMessages (msgs : List WireMessage) (partyId : Nat) :
    List WireMessage :=
  (msgs.filter (fun m => m.to_id == none || m.to_id == some partyId)).filter
    (fun m => m.from_id != partyId)

/-- C7 counterexample: the claim says the broadcast selection delivers
exactly the frames with `to` unset and `from ≠ p`, and the P2P
selection exactly those with `to = p` and `from ≠ p`.  But
`filterMessages` delivers to party 0 a frame addressed point-to-point
to party 2, and `selectMessages` delivers to party 0 a frame the party
sent to itself. -/
theorem c7_counterexample :
    filterMessages [⟨1, some 2, []⟩] 0 = [⟨1, some 2, []⟩] ∧
    (⟨1, some 2, []⟩ : WireMessage).to_id ≠ none ∧
    selectMessages [⟨0, some 0, []⟩] 0 = [⟨0, some 0, []⟩] ∧
    (⟨0, some 0, []⟩ : WireMessage).from_id = 0 := by
  refine ⟨rfl, by simp, rfl, rfl⟩

/-- C7 amended: `filterMessages` delivers exactly the frames with
`from ≠ p` (regardless of `to`, so P2P frames for other parties ride
the broadcast leg); `selectMessages` delivers exactly the frames with
`to = p` (regardless of `from`, so a self-addressed frame would be
delivered); only `DKLSParty.filterIncomingMessages` implements the
spec's combined selection `(to unset ∨ to = p) ∧ from ≠ p`. -/
theorem c7_routing_characterization (msgs : List WireMessage) (p : Nat)
    (f : WireMessage) :
    (f ∈ filterMessages msgs p ↔ f ∈ msgs ∧ f.from_id ≠ p) ∧
    (f ∈ selectMessages msgs p ↔ f ∈ msgs ∧ f.to_id = some p) ∧
    (f ∈ filterIncomingMessages msgs p ↔
      f ∈ msgs ∧ (f.to_id = none ∨ f.to_id = some p) ∧ f.from_id ≠ p) := by
  refine ⟨?_, ?_, ?_⟩
  · simp [filterMessages, List.mem_filter]
  · simp [selectMessages, List.mem_filter]
  · simp [filterIncomingMessages, List.mem_filter, and_assoc]
    tauto

/-! ### Recovery-id resolution -/

/-- The v-calculation in `DKLSService.signMessage`
(`src/core/DKLSService.ts` lines 258-282).  `v` defaults to 27; when a
public key was supplied the code tries the candidates 27 and 28 against
an address-recovery oracle and keeps the first match, and when neither
matches the default 27 is silently kept — no error is raised.
`recoverMatches v` abstracts "`ethers.utils.recoverAddress` succeeds on
(r, s, v) and the recovered address equals the address derived from the
expected public key" (a `try/catch` failure counts as no match). -/
def calculateV (publicKeyProvided : Bool) (recoverMatches : Nat → Bool) : Nat :=
  if publicKeyProvided then
    if recoverMatches 27 then 27
    else if recoverMatches 28 then 28
    else 27
  else 27

/-- C2 counterexample: the claim says the recovery-id resolution
returns v ∈ {0, 1} and fails with `RecoveryFailed` when neither
candidate recovers the expected key.  But when neither candidate
matches, `signMessage` returns the default v = 27 — a value, not an
error — and 27 is not in {0, 1}. -/
theorem c2_counterexample :
    calculateV true (fun _ => false) = 27 ∧ ¬(27 = 0 ∨ 27 = 1) :=
  ⟨rfl, by decide⟩

/-- C2 amended: the resolver works with the Ethereum-legacy candidates
{27, 28}, not {0, 1}; without a public key it returns the default 27;
with one it returns the first matching candidate, and when neither
candidate matches it silently returns the default 27 instead of
failing. -/
theorem c2_v_resolution (recoverMatches : Nat → Bool) :
    calculateV false recoverMatches = 27 ∧
    (recoverMatches 27 = true → calculateV true recoverMatches = 27) ∧
    (recoverMatches 27 = false → recoverMatches 28 = true →
      calculateV true recoverMatches = 28) ∧
    (recoverMatches 27 = false → recoverMatches 28 = false →
      calculateV true recoverMatches = 27) := by
  refine ⟨rfl, ?_, ?_, ?_⟩ <;> intro h1 <;>
    first
      | (intro h2; simp [calculateV, h1, h2])
      | simp [calculateV, h1]

theorem c2_v_resolution_witness :
    calculateV true (fun v => v == 28) = 28 :=
  (c2_v_resolution (fun v => v == 28)).2.2.1 rfl rfl

/-! ### Digest-length validation on the signing entry points -/

/-- Errors thrown before any protocol round in the signing entry
points. -/
inductive SignError
  /-- thrown by `signMessage` as 'Insufficient keyshares: need t, got n' -/
  | insufficientKeyshares
  /-- thrown by `signHash` as 'Invalid hash length: expected 32 bytes, got n' -/
  | invalidHashLength
deriving DecidableEq

/-- The validation `DKLSService.signMessage` performs before creating
sessions and running any protocol round (`src/core/DKLSService.ts`
lines 206-208): the only check is `keyshares.length < threshold`.  The
digest is not inspected at all — it is first used in the online round
(`lastMessage`) after all three pre-signature rounds have run. -/
def signMessagePreRoundChecks (messageHash : List Nat)
    (ksCount threshold : Nat) : Except SignError Unit :=
  if ksCount < threshold then .error .insufficientKeyshares else .ok ()

/-- Model of `BitShardSDK.signHash` digest validation (`src/BitShardSDK.ts`
lines 206-225): after converting the hash to bytes it rejects any
length other than 32, then delegates to `DKLSService.signMessage`. -/
def signHashChecks (hashBytes : List Nat) (ksCount threshold : Nat) :
    Except SignError Unit :=
  if hashBytes.length ≠ 32 then .error .invalidHashLength
  else signMessagePreRoundChecks hashBytes ksCount threshold

/-- C6 counterexample: the claim says every signing entry point rejects
a non-32-byte digest before any protocol round runs, but
`DKLSService.signMessage` — a public signing entry point and one of the
claim's own sources — passes its entire pre-round validation with a
31-byte digest. -/
theorem c6_counterexample :
    signMessagePreRoundChecks (List.replicate 31 0) 2 2 = .ok () ∧
    (List.replicate 31 (0 : Nat)).length ≠ 32 :=
  ⟨rfl, by decide⟩

/-- C6 amended: `BitShardSDK.signHash` rejects every digest whose
length differs from 32 bytes before signing; `DKLSService.signMessage`
performs no digest-length validation — its pre-round outcome is
independent of the digest, and any digest passes once enough keyshares
are supplied. -/
theorem c6_digest_validation :
    (∀ (hashBytes : List Nat) (ks t : Nat), hashBytes.length ≠ 32 →
      signHashChecks hashBytes ks t = .error .invalidHashLength) ∧
    (∀ (d1 d2 : List Nat) (ks t : Nat),
      signMessagePreRoundChecks d1 ks t = signMessagePreRoundChecks d2 ks t) ∧
    (∀ (messageHash : List Nat) (ks t : Nat), t ≤ ks →
      signMessagePreRoundChecks messageHash ks t = .ok ()) := by
  refine ⟨?_, ?_, ?_⟩
  · intro hashBytes ks t h
    rw [signHashChecks, if_pos h]
  · intro d1 d2 ks t
    rfl
  · intro messageHash ks t h
    rw [signMessagePreRoundChecks, if_neg (by omega)]

theorem c6_digest_validation_witness :
    signHashChecks [] 2 2 = .error .invalidHashLength ∧
    signMessagePreRoundChecks (List.replicate 32 0) 2 2 = .ok () :=
  ⟨c6_digest_validation.1 [] 2 2 (by decide),
   c6_digest_validation.2.2 (List.replicate 32 0) 2 2 (by omega)⟩

/-! ### Keygen round-2 commitment indexing -/

/-- The commitment-indexing step of `DKLSService.executeDKG`
(`src/core/DKLSService.ts` lines 164-169): the source allocates an
array and runs `selfIds.forEach((id, idx) => commitments[id] =
commitmentsRaw[idx])`.  JavaScript array assignment at an arbitrary
index is modelled as a partial map built by iterated pointwise update,
later writes overwriting earlier ones; unassigned slots are `none`
(JS `undefined`). -/
def indexCommitments {α : Type} (selfIds : List Nat) (commitmentsRaw : List α) :
    Nat → Option α :=
  (List.zip selfIds commitmentsRaw).foldl
    (fun acc kv => fun j => if j = kv.1 then some kv.2 else acc j)
    (fun _ => none)

/-- The commitments stage over the round-1 frames: `executeDKG` records
`selfIds = msg1.map(m => m.from_id)` (line 157) and indexes the raw
commitments by those ids. -/
def dkgCommitmentsStage {α : Type} (msg1 : List WireMessage)
    (commitmentsRaw : List α) : Nat → Option α :=
  indexCommitments (msg1.map WireMessage.from_id) commitmentsRaw

theorem indexFold_notmem {α : Type} :
    ∀ (l : List (Nat × α)) (acc : Nat → Option α) (i : Nat),
      (∀ p ∈ l, p.1 ≠ i) →
      l.foldl (fun acc kv => fun j => if j = kv.1 then some kv.2 else acc j)
          acc i = acc i := by
  intro l
  induction l with
  | nil => intro acc i _; rfl
  | cons hd tl ih =>
      intro acc i hnot
      rw [List.foldl_cons, ih _ i (fun p hp => hnot p (List.mem_cons_of_mem hd hp))]
      rw [if_neg (fun hc => hnot hd (List.mem_cons_self hd tl) hc.symm)]

theorem indexFold_get {α : Type} :
    ∀ (selfIds : List Nat) (raw : List α) (acc : Nat → Option α)
      (idx : Nat) (h1 : idx < selfIds.length) (h2 : idx < raw.length),
      selfIds.Nodup →
      (List.zip selfIds raw).foldl
          (fun acc kv => fun j => if j = kv.1 then some kv.2 else acc j) acc
          (selfIds.get ⟨idx, h1⟩) = some (raw.get ⟨idx, h2⟩) := by
  intro selfIds
  induction selfIds with
  | nil => intro raw acc idx h1; simp at h1
  | cons k ks ih =>
      intro raw acc idx h1 h2 hnodup
      cases raw with
      | nil => simp at h2
      | cons r rs =>
          rw [List.zip_cons_cons, List.foldl_cons]
          cases idx with
          | zero =>
              have hknotin : k ∉ ks := (List.nodup_cons.mp hnodup).1
              rw [show (k :: ks).get ⟨0, h1⟩ = k from rfl]
              rw [indexFold_notmem _ _ k
                (fun p hp hc => hknotin (hc ▸ (List.of_mem_zip hp).1))]
              rw [if_pos rfl]
              rfl
          | succ j =>
              have hj1 : j < ks.length := by simpa using h1
              have hj2 : j < rs.length := by simpa using h2
              have hget : (k :: ks).get ⟨j + 1, h1⟩ = ks.get ⟨j, hj1⟩ := rfl
              rw [hget, ih rs _ j hj1 hj2 (List.nodup_cons.mp hnodup).2]
              rfl

/-- C8: during keygen the round-2 chain-code commitments vector is
indexed by each party's self id as recorded from the `from_id` of its
round-1 frame, not by batch position: for distinct party ids, the entry
at the id carried by the idx-th round-1 frame is exactly the idx-th
party's raw commitment — also when ids are non-contiguous. -/
theorem c8_commitments_indexed_by_from_id {α : Type}
    (msg1 : List WireMessage) (commitmentsRaw : List α)
    (hnodup : (msg1.map WireMessage.from_id).Nodup)
    (idx : Nat) (h1 : idx < msg1.length) (h2 : idx < commitmentsRaw.length) :
    dkgCommitmentsStage msg1 commitmentsRaw
        ((msg1.get ⟨idx, h1⟩).from_id) =
      some (commitmentsRaw.get ⟨idx, h2⟩) := by
  rw [dkgCommitmentsStage, indexCommitments]
  have hlen : idx < (msg1.map WireMessage.from_id).length := by simpa using h1
  have hget : (msg1.map WireMessage.from_id).get ⟨idx, hlen⟩ =
      (msg1.get ⟨idx, h1⟩).from_id := by
    simp
  rw [← hget]
  exact indexFold_get (msg1.map WireMessage.from_id) commitmentsRaw _ idx hlen
    h2 hnodup

/-! ### Public-key normalisation to uncompressed form -/

/-- Big-endian byte list to integer: the model of `BigInt('0x' + hex)`
on a hex string of whole bytes. -/
def bytesToNat (bs : List Nat) : Nat :=
  bs.foldl (fun acc b => acc * 256 + b) 0

/-- Integer to fixed-width big-endian bytes: the model of
`toString(16).padStart(2*len, '0')` for a value below `256^len`,
emitting the most significant byte first. -/
def natToBytes : Nat → Nat → List Nat
  | 0, _ => []
  | len + 1, n => n / 256 ^ len % 256 :: natToBytes len (n % 256 ^ len)

/-- Model of `compressPublicKey` (`src/crypto/addresses.ts` lines
136-149) at byte granularity.  The source first strips a leading 04
byte (`publicKeyHex.startsWith('04') ? publicKeyHex.slice(2) :
publicKeyHex`, line 138) — a heuristic meant for 65-byte uncompressed
inputs that also fires on a bare 64-byte x‖y whose x begins with byte
04, shifting the whole parse by one byte.  It then takes x = bytes 0-31
(`slice(0, 64)` on hex) and y = bytes 32-63 (`slice(64, 128)`) of the
remainder and returns the parity prefix (02 for even y, 03 for odd)
followed by the x substring, modelled as (prefix byte, x value). -/
def compressPublicKey (input : List Nat) : Nat × Nat :=
  let cleanBytes := if input.head? == some 4 then input.drop 1 else input
  let x := cleanBytes.take 32
  let y := (cleanBytes.drop 32).take 32
  (if bytesToNat y % 2 = 0 then 2 else 3, bytesToNat x)

/-- Model of `isCompressedPublicKey` (`src/crypto/elliptic.ts` lines 97-107):
33 bytes (66 hex chars) with a leading 02 or 03 byte. -/
def isCompressedPublicKey (bytes : List Nat) : Bool :=
  bytes.length == 33 && (bytes.head? == some 2 || bytes.head? == some 3)

/-- Model of `getUncompressedPublicKey` (`src/crypto/elliptic.ts` lines
114-133), at byte granularity: a compressed input is decompressed; an
input starting with the byte 04 has that byte stripped; an input of
exactly 64 bytes is returned verbatim — with no curve-equation check;
anything else is rejected. -/
def getUncompressedPublicKey (input : List Nat) :
    Except EllipticError (List Nat) :=
  if isCompressedPublicKey input then
    match decompressPublicKey (input.headD 0) (bytesToNat (input.drop 1)) with
    | .ok (x, y) => .ok (natToBytes 32 x ++ natToBytes 32 y)
    | .error e => .error e
  else if input.head? == some 4 then .ok (input.drop 1)
  else if input.length == 64 then .ok input
  else .error .invalidFormat

/-- A second definition following the spec's words (`spec.md` §3,
Point invariant; §4.A: 'the 64-byte form must still satisfy the curve
equation'): membership in secp256k1, `y² ≡ x³ + 7 (mod p)`.  The source
has no corresponding check on the 64-byte path — which is what C9 is
about. -/
def specCurveEquation (x y : Nat) : Prop :=
  y * y % P = (modPow x 3 P + 7) % P

/-- The 64-byte encoding of the off-curve point (1, 1). -/
def offCurve64 : List Nat :=
  List.replicate 31 0 ++ [1] ++ List.replicate 31 0 ++ [1]

attribute [local semireducible] modPow in
/-- C9 counterexample: the claim says the 64-byte bare `x‖y` path
accepts an input only when the point satisfies the curve equation.  But
`getUncompressedPublicKey` returns any 64-byte input verbatim: the
encoding of (1, 1) is accepted although 1² ≢ 1³ + 7 (mod p). -/
theorem c9_counterexample :
    getUncompressedPublicKey offCurve64 = .ok offCurve64 ∧
    bytesToNat (offCurve64.take 32) = 1 ∧
    bytesToNat (offCurve64.drop 32) = 1 ∧
    ¬ specCurveEquation 1 1 :=
  ⟨by rfl, by decide, by decide, by simp only [specCurveEquation]; decide⟩

/-- C9 amended: the 64-byte bare path performs no curve-equation (or
any other) validation: every 64-byte input whose first byte is not 04
(such an input would instead be mangled by the uncompressed-prefix
stripping) is returned verbatim, on-curve or not. -/
theorem c9_bare64_no_curve_check (input : List Nat)
    (hlen : input.length = 64) (hhead : input.head? ≠ some 4) :
    getUncompressedPublicKey input = .ok input := by
  rw [getUncompressedPublicKey]
  rw [if_neg (by simp [isCompressedPublicKey, hlen])]
  rw [if_neg (by simp [hhead])]
  rw [if_pos (by simp [hlen])]

theorem c9_bare64_no_curve_check_witness :
    getUncompressedPublicKey (List.replicate 63 0 ++ [2]) =
      .ok (List.replicate 63 0 ++ [2]) :=
  c9_bare64_no_curve_check (List.replicate 63 0 ++ [2]) (by decide) (by decide)

/-! ### Byte serialisation lemmas and the compression round trip -/

theorem natToBytes_length : ∀ (len n : Nat), (natToBytes len n).length = len := by
  intro len
  induction len with
  | zero => intro n; rfl
  | succ k ih =>
      intro n
      rw [natToBytes]
      simp [ih]

theorem bytesToNat_foldl : ∀ (bs : List Nat) (acc : Nat),
    List.foldl (fun a b => a * 256 + b) acc bs =
      acc * 256 ^ bs.length + bytesToNat bs := by
  intro bs
  induction bs with
  | nil => intro acc; simp [bytesToNat]
  | cons b t ih =>
      intro acc
      rw [List.foldl_cons, ih (acc * 256 + b)]
      have hb : bytesToNat (b :: t) = b * 256 ^ t.length + bytesToNat t := by
        rw [bytesToNat, List.foldl_cons]
        rw [show (0 * 256 + b : Nat) = b by omega]
        exact ih b
      rw [hb]
      simp only [List.length_cons, pow_succ]
      ring

theorem bytesToNat_natToBytes : ∀ (len n : Nat), n < 256 ^ len →
    bytesToNat (natToBytes len n) = n := by
  intro len
  induction len with
  | zero =>
      intro n h
      interval_cases n
      rfl
  | succ k ih =>
      intro n h
      rw [natToBytes, bytesToNat, List.foldl_cons, bytesToNat_foldl,
        natToBytes_length,
        ih (n % 256 ^ k) (Nat.mod_lt _ (by positivity))]
      have hd : n / 256 ^ k < 256 := by
        rw [Nat.div_lt_iff_lt_mul (by positivity)]
        calc n < 256 ^ (k + 1) := h
          _ = 256 * 256 ^ k := by ring
      rw [show (0 * 256 + n / 256 ^ k % 256 : Nat) = n / 256 ^ k % 256 by omega,
        Nat.mod_eq_of_lt hd]
      exact Nat.div_add_mod' n (256 ^ k)

/-- Unfolded form of `compressPublicKey` for rewriting. -/
theorem compressPublicKey_eq (input : List Nat) :
    compressPublicKey input =
      (if bytesToNat
            (((if input.head? == some 4 then input.drop 1 else input).drop 32).take 32)
            % 2 = 0
        then 2 else 3,
       bytesToNat ((if input.head? == some 4 then input.drop 1 else input).take 32)) :=
  rfl

/-- The x coordinate — leading byte 04 — of an on-curve secp256k1 point
that triggers the uncompressed-prefix stripping in
`compressPublicKey`. -/
def badX : Nat :=
  0x0400000000000000000000000000000000000000000000000000000000000007

/-- The even y coordinate with (badX, badY) on the curve. -/
def badY : Nat :=
  0x45BF9848EB3C7BC152487E10D14A813372F5CC456C6F88590EA27B63EF618EBA

attribute [local semireducible] modPow in
/-- C3 counterexample: the claim says decompressing the compression of
any on-curve point given as 64-byte x‖y returns the point.  But the
64-byte encoding of the on-curve point (badX, badY) starts with byte
04, so `compressPublicKey` strips it as an uncompressed-marker and
misparses the remainder: the compressed output carries the x value
1861 = 0x0745 (the last byte 07 of badX followed by the first byte 45
of badY) instead of badX, and decompressing that output fails with
`PointInvalid` instead of returning the point. -/
theorem c3_counterexample :
    badY * badY % P = (modPow badX 3 P + 7) % P ∧
    badX < P ∧ 0 < badY ∧ badY < P ∧
    (natToBytes 32 badX ++ natToBytes 32 badY).head? = some 4 ∧
    compressPublicKey (natToBytes 32 badX ++ natToBytes 32 badY) = (2, 1861) ∧
    badX ≠ 1861 ∧
    decompressPublicKey 2 1861 = .error .pointInvalid :=
  ⟨by decide, by decide, by decide, by decide, by rfl, by rfl, by decide, by rfl⟩

/-- C3 amended: compression and decompression are mutually inverse away
from the 04-stripping hazard.  `compressPublicKey` strips a leading 04
byte (meant for 65-byte uncompressed inputs), which mangles a bare
64-byte x‖y whose x starts with byte 04.  For every on-curve point
whose x coordinate's leading byte is not 04 — on-curveness rendered as
in the original claim by ranges, the curve equation, and the two
per-point facts true of every on-curve point since p is prime —
decompressing the compression of its 64-byte encoding returns the
point; and for every valid compressed encoding whose x value has
leading byte other than 04, compressing the decompression returns the
original prefix and x. -/
theorem c3_point_roundtrip_amended :
    (∀ (xb yb : List Nat), xb.length = 32 → yb.length = 32 →
      xb.head? ≠ some 4 →
      bytesToNat xb < P → bytesToNat yb < P → 0 < bytesToNat yb →
      bytesToNat yb * bytesToNat yb % P = alphaOf (bytesToNat xb) →
      modPow (alphaOf (bytesToNat xb)) ((P - 1) / 2) P = 1 →
      (modPow (alphaOf (bytesToNat xb)) ((P + 1) / 4) P = bytesToNat yb ∨
        modPow (alphaOf (bytesToNat xb)) ((P + 1) / 4) P = P - bytesToNat yb) →
      decompressPublicKey (compressPublicKey (xb ++ yb)).1
          (compressPublicKey (xb ++ yb)).2 =
        .ok (bytesToNat xb, bytesToNat yb)) ∧
    (∀ pre x x' y' : Nat, x < 2 ^ 256 →
      decompressPublicKey pre x = .ok (x', y') →
      x' / 2 ^ 248 ≠ 4 →
      compressPublicKey (natToBytes 32 x' ++ natToBytes 32 y') = (pre, x)) := by
  constructor
  · intro xb yb hxl hyl hhead hx hy hypos honc hleg hroot
    have hPodd := P_mod_two
    have hclean : (if (xb ++ yb).head? == some 4
        then (xb ++ yb).drop 1 else xb ++ yb) = xb ++ yb := by
      cases xb with
      | nil => simp at hxl
      | cons a t =>
          have ha : a ≠ 4 := fun hc =>
            hhead (show (a :: t).head? = some 4 by simp [hc])
          rw [if_neg (by simp [ha])]
    have hcomp : compressPublicKey (xb ++ yb) =
        (if bytesToNat yb % 2 = 0 then 2 else 3, bytesToNat xb) := by
      rw [compressPublicKey_eq, hclean, List.take_left' hxl,
        List.drop_left' hxl, ← hyl, List.take_length]
    rw [hcomp]
    by_cases hy2 : bytesToNat yb % 2 = 0
    · rw [if_pos hy2]
      show decompressPublicKey 2 (bytesToNat xb) =
        .ok (bytesToNat xb, bytesToNat yb)
      rw [decompress_eval (by simp) hleg]
      rcases hroot with hr | hr
      · rw [hr, if_neg (by simp [hy2])]
      · rw [hr]
        have hpm : (P - bytesToNat yb) % 2 = 1 := by omega
        rw [if_pos (by simp [hpm])]
        have hsub : P - (P - bytesToNat yb) = bytesToNat yb := by omega
        rw [hsub]
    · have hy1 : bytesToNat yb % 2 = 1 := by omega
      rw [if_neg hy2]
      show decompressPublicKey 3 (bytesToNat xb) =
        .ok (bytesToNat xb, bytesToNat yb)
      rw [decompress_eval (by simp) hleg]
      rcases hroot with hr | hr
      · rw [hr, if_neg (by simp [hy1])]
      · rw [hr]
        have hpm : (P - bytesToNat yb) % 2 = 0 := by omega
        rw [if_pos (by simp [hpm])]
        have hsub : P - (P - bytesToNat yb) = bytesToNat yb := by omega
        rw [hsub]
  · intro pre x x' y' hx256 h htop
    obtain ⟨hpre2, hx, _, _, hpos, hlt, hpar⟩ := decompress_ok h
    subst hx
    have hhead : (natToBytes 32 x' ++ natToBytes 32 y').head? =
        some (x' / 256 ^ 31 % 256) := rfl
    have hne : x' / 256 ^ 31 % 256 ≠ 4 := by
      have heq : (256 : Nat) ^ 31 = 2 ^ 248 := by rfl
      have h2 : x' / 256 ^ 31 < 256 := by
        rw [Nat.div_lt_iff_lt_mul (by positivity)]
        calc x' < 2 ^ 256 := hx256
          _ = 256 * 256 ^ 31 := by rfl
      rw [Nat.mod_eq_of_lt h2, heq]
      exact htop
    have hy'256 : y' < 2 ^ 256 := by
      have hP : P < 2 ^ 256 := by decide
      omega
    have hcomp : compressPublicKey (natToBytes 32 x' ++ natToBytes 32 y') =
        (if bytesToNat (natToBytes 32 y') % 2 = 0 then 2 else 3,
         bytesToNat (natToBytes 32 x')) := by
      rw [compressPublicKey_eq]
      rw [show (if (natToBytes 32 x' ++ natToBytes 32 y').head? == some 4
          then (natToBytes 32 x' ++ natToBytes 32 y').drop 1
          else natToBytes 32 x' ++ natToBytes 32 y') =
          natToBytes 32 x' ++ natToBytes 32 y' by
        rw [if_neg (fun hc => by
          rw [hhead] at hc
          exact hne (Option.some.inj (eq_of_beq hc)))]]
      rw [List.take_left' (natToBytes_length 32 x'),
        List.drop_left' (natToBytes_length 32 x')]
      rw [show (natToBytes 32 y').take 32 = natToBytes 32 y' by
        conv_lhs => rw [show (32 : Nat) = (natToBytes 32 y').length from
          (natToBytes_length 32 y').symm]
        exact List.take_length _]
    rw [hcomp,
      bytesToNat_natToBytes 32 x' (by
        calc x' < 2 ^ 256 := hx256
          _ = 256 ^ 32 := by rfl),
      bytesToNat_natToBytes 32 y' (by
        calc y' < 2 ^ 256 := hy'256
          _ = 256 ^ 32 := by rfl)]
    rcases hpre2 with h2 | h3
    · subst h2
      rw [if_pos (hpar.mpr rfl)]
    · subst h3
      have hne' : ¬(y' % 2 = 0) := fun hc => by simpa using hpar.mp hc
      rw [if_neg hne']

attribute [local semireducible] modPow in
theorem c3_point_roundtrip_amended_witness :
    decompressPublicKey
        (compressPublicKey (natToBytes 32 secpGx ++ natToBytes 32 secpGy)).1
        (compressPublicKey (natToBytes 32 secpGx ++ natToBytes 32 secpGy)).2 =
      .ok (secpGx, secpGy) ∧
    compressPublicKey (natToBytes 32 secpGx ++ natToBytes 32 secpGy) =
      (2, secpGx) :=
  ⟨c3_point_roundtrip_amended.1 (natToBytes 32 secpGx) (natToBytes 32 secpGy)
      (by decide) (by decide) (by decide) (by decide) (by decide) (by decide)
      (by decide) (by decide) (Or.inl (by decide)),
   c3_point_roundtrip_amended.2 2 secpGx secpGx secpGy (by decide) (by rfl)
      (by decide)⟩

/-! ### Keyshare cloning in signMessage (frame effect) -/

/-- A store of live WASM `Keyshare` objects.  Handles below `next` have
been allocated; `mem h = some bytes` means handle h is live with the
given serialised content, `none` means consumed (moved into a
`SignSession`) or never allocated.  The move-on-construction semantics
is the one the source itself documents: 'Clone keyshares since
SignSession consumes them' (`src/core/DKLSService.ts` line 210) and
`spec.md` §3 (Keyshare lifecycle: 'consumed when handed to a
SignSession (ownership transfer)'). -/
structure WasmStore where
  next : Nat
  mem : Nat → Option (List Nat)

/-- Model of `Keyshare.toBytes`: pure read of the serialised content; fails on a
consumed handle. -/
def toBytes (σ : WasmStore) (h : Nat) : Option (List Nat) := σ.mem h

/-- Model of `Keyshare.fromBytes`: allocates a fresh handle holding the given
bytes. -/
def fromBytes (σ : WasmStore) (b : List Nat) : WasmStore × Nat :=
  (⟨σ.next + 1, fun k => if k = σ.next then some b else σ.mem k⟩, σ.next)

/-- Model of `new SignSession(ks, "m")`: consumes the keyshare handle. -/
def newSignSession (σ : WasmStore) (h : Nat) : WasmStore :=
  ⟨σ.next, fun k => if k = h then none else σ.mem k⟩

/-- The cloning pass `keyshares.slice(0, threshold).map(ks =>
Keyshare.fromBytes(ks.toBytes()))` (`src/core/DKLSService.ts` lines
211-214), threaded through the store; fails if a handle is already
consumed (the WASM call would throw). -/
def cloneShares : WasmStore → List Nat → Option (WasmStore × List Nat)
  | σ, [] => some (σ, [])
  | σ, h :: hs =>
      match toBytes σ h with
      | none => none
      | some b =>
          match cloneShares (fromBytes σ b).1 hs with
          | none => none
          | some (σ2, hs') => some (σ2, (fromBytes σ b).2 :: hs')

/-- The session-construction pass `signingShares.map(ks => new
SignSession(ks, "m"))` (`src/core/DKLSService.ts` lines 218-220): each
clone is consumed. -/
def consumeAll (σ : WasmStore) (hs : List Nat) : WasmStore :=
  hs.foldl newSignSession σ

/-- The keyshare-handling prelude of `DKLSService.signMessage`
(`src/core/DKLSService.ts` lines 206-220): count check, clone the first
`threshold` keyshares, then hand the clones — not the originals — to
the SignSession constructors. -/
def signMessageSharePrep (σ : WasmStore) (keyshares : List Nat)
    (threshold : Nat) : Option WasmStore :=
  if keyshares.length < threshold then none
  else
    match cloneShares σ (keyshares.take threshold) with
    | none => none
    | some (σ1, clones) => some (consumeAll σ1 clones)

theorem cloneShares_frame :
    ∀ (hs : List Nat) (σ σ2 : WasmStore) (clones : List Nat),
      cloneShares σ hs = some (σ2, clones) →
      σ.next ≤ σ2.next ∧
      (∀ k, k < σ.next → σ2.mem k = σ.mem k) ∧
      (∀ c ∈ clones, σ.next ≤ c ∧ c < σ2.next) := by
  intro hs
  induction hs with
  | nil =>
      intro σ σ2 clones h
      simp only [cloneShares, Option.some.injEq, Prod.mk.injEq] at h
      obtain ⟨h1, h2⟩ := h
      subst h1; subst h2
      exact ⟨le_refl _, fun k _ => rfl, by simp⟩
  | cons hd tl ih =>
      intro σ σ2 clones h
      rw [cloneShares] at h
      split at h
      · exact absurd h (by simp)
      · split at h
        · exact absurd h (by simp)
        · rename_i b hb σ' clones' hc
          simp only [Option.some.injEq, Prod.mk.injEq] at h
          obtain ⟨h1, h2⟩ := h
          subst h1; subst h2
          obtain ⟨hle, hmem, hcl⟩ := ih _ _ _ hc
          refine ⟨?_, ?_, ?_⟩
          · simp only [fromBytes] at hle
            omega
          · intro k hk
            rw [hmem k (by simp [fromBytes]; omega)]
            simp only [fromBytes]
            rw [if_neg (by omega)]
          · intro c hc'
            rcases List.mem_cons.mp hc' with h | h
            · subst h
              simp only [fromBytes] at hle ⊢
              omega
            · have := hcl c h
              simp only [fromBytes] at this
              omega

theorem consumeAll_frame :
    ∀ (clones : List Nat) (σ : WasmStore) (k : Nat),
      (∀ c ∈ clones, k ≠ c) →
      (consumeAll σ clones).mem k = σ.mem k := by
  intro clones
  induction clones with
  | nil => intro σ k _; rfl
  | cons c cs ih =>
      intro σ k hk
      rw [consumeAll, List.foldl_cons]
      rw [show List.foldl newSignSession (newSignSession σ c) cs =
        consumeAll (newSignSession σ c) cs from rfl]
      rw [ih _ k (fun c' hc' => hk c' (List.mem_cons_of_mem c hc'))]
      simp only [newSignSession]
      rw [if_neg (hk c (List.mem_cons_self c cs))]

/-- C10: `signMessage` does not consume or mutate the caller's
keyshares.  The prelude clones each selected keyshare through
`toBytes`/`fromBytes` and hands only the clones to the SignSession
constructors, so every handle that was live before the call is still
live with unchanged serialised content afterwards — the originals
remain usable for further signing calls. -/
theorem c10_signMessage_preserves_keyshares
    (σ σf : WasmStore) (keyshares : List Nat) (threshold : Nat)
    (halloc : ∀ h ∈ keyshares, h < σ.next)
    (hprep : signMessageSharePrep σ keyshares threshold = some σf) :
    ∀ h0 ∈ keyshares, σf.mem h0 = σ.mem h0 := by
  intro h0 hmem
  rw [signMessageSharePrep] at hprep
  split at hprep
  · exact absurd hprep (by simp)
  · split at hprep
    · exact absurd hprep (by simp)
    · rename_i σ1 clones hc
      simp only [Option.some.injEq] at hprep
      subst hprep
      obtain ⟨hle, hbelow, hcl⟩ := cloneShares_frame _ _ _ _ hc
      have hh0 : h0 < σ.next := halloc h0 hmem
      rw [consumeAll_frame clones σ1 h0
        (fun c hc' => by have := hcl c hc'; omega)]
      exact hbelow h0 hh0

/-- A concrete two-keyshare store for instantiating C10. -/
def demoStore : WasmStore :=
  ⟨2, fun k => if k = 0 then some [5] else if k = 1 then some [6] else none⟩

theorem c10_signMessage_preserves_keyshares_witness :
    Option.map (fun σf => (σf.mem 0, σf.mem 1))
        (signMessageSharePrep demoStore [0, 1] 2) =
      some (some [5], some [6]) := by
  cases hp : signMessageSharePrep demoStore [0, 1] 2 with
  | none =>
      have hev : signMessageSharePrep demoStore [0, 1] 2 ≠ none := by
        rw [show signMessageSharePrep demoStore [0, 1] 2 =
          some (consumeAll
            ⟨4, fun k => if k = 3 then some [6] else
              if k = 2 then some [5] else demoStore.mem k⟩ [2, 3]) from rfl]
        simp
      exact absurd hp hev
  | some σf =>
      have hfr := c10_signMessage_preserves_keyshares demoStore σf [0, 1] 2
        (by intro h hm; rcases List.mem_cons.mp hm with h0 | h1
            · subst h0; decide
            · simp at h1; subst h1; decide) hp
      rw [Option.map_some', hfr 0 (by simp), hfr 1 (by simp)]
      rfl

/-! ### One-shot signing sessions and pre-signatures -/

/-- Errors thrown by `PreSignatureManager.signWithPreSignature` and by
`DKLSParty.lastMessage`/`combine`; one constructor per throw site. -/
inductive SessionError
  /-- thrown as 'CRITICAL: Pre-signature has already been used! ...' -/
  | preSignatureAlreadyUsed
  /-- thrown as 'Pre-signature has already been consumed' -/
  | preSignatureConsumed
  /-- thrown as 'No active sign session' -/
  | noActiveSignSession
  /-- thrown as 'Invalid signature format' -/
  | invalidSignatureFormat
deriving DecidableEq

/-- A `PreSignature` record (`src/core/types.ts` lines 170-179): the
tracking id, the prepared `SignSession[]` (opaque, modelled as a `Nat`
handle), and the consumed flag.  The timestamp carries no behaviour and
is omitted. -/
structure PreSignature where
  id : Nat
  parties : Nat
  consumed : Bool
deriving DecidableEq

/-- The mutable state of a `PreSignatureManager`
(`src/protocols/presignature.ts` lines 14-16): the process-scoped set
of consumed pre-signature ids (the pool map carries no behaviour for
the claims and is omitted). -/
structure PSMState where
  consumedPreSignatures : List Nat
deriving DecidableEq

/-- Model of `PreSignatureManager.signWithPreSignature`
(`src/protocols/presignature.ts` lines 100-133): fails when the id is
already in the consumed set, or when the record's consumed flag is set;
otherwise marks both immediately and only then runs the online round
and combine on the stored sessions.  The WASM `lastMessage`/`combine`
computation is abstracted by `combineResult` (a function of the stored
sessions and the digest); the state updates are the modelled
behaviour. -/
def signWithPreSignature (combineResult : Nat → List Nat → List Nat × List Nat)
    (st : PSMState) (ps : PreSignature) (messageHash : List Nat) :
    Except SessionError (PSMState × PreSignature × (List Nat × List Nat)) :=
  if ps.id ∈ st.consumedPreSignatures then .error .preSignatureAlreadyUsed
  else if ps.consumed then .error .preSignatureConsumed
  else .ok (⟨ps.id :: st.consumedPreSignatures⟩, { ps with consumed := true },
    combineResult ps.parties messageHash)

/-- Model of `PreSignatureManager.isConsumed` (`src/protocols/presignature.ts`
lines 140-142): public spent-state query. -/
def isConsumed (st : PSMState) (psId : Nat) : Bool :=
  psId ∈ st.consumedPreSignatures

/-- Model of the `DKLSParty` session fields (`src/core/DKLSParty.ts` lines 268-269):
the optional keygen and sign sessions; the WASM session objects are
opaque `Nat` handles. -/
structure DKLSPartyState where
  keygenSession : Option Nat
  signSession : Option Nat
deriving DecidableEq

/-- Result type of `DKLSParty.getSessionType` (`src/core/DKLSParty.ts` lines
554-558). -/
inductive SessionKind
  | keygen
  | signing
  | idle
deriving DecidableEq

def getSessionType (p : DKLSPartyState) : SessionKind :=
  if p.keygenSession.isSome then .keygen
  else if p.signSession.isSome then .signing
  else .idle

/-- Model of `DKLSParty.lastMessage` (`src/core/DKLSParty.ts` lines 442-449):
fails without an active sign session; otherwise delegates to the WASM
session's `lastMessage` (abstracted by `lastMessageImpl`) and leaves
the session in place.  The party state is returned alongside the
result because the source mutates `this`. -/
def partyLastMessage (lastMessageImpl : Nat → List Nat → WireMessage)
    (p : DKLSPartyState) (messageHash : List Nat) :
    Except SessionError WireMessage × DKLSPartyState :=
  match p.signSession with
  | none => (.error .noActiveSignSession, p)
  | some s => (.ok (lastMessageImpl s messageHash), p)

/-- Model of `DKLSParty.combine` (`src/core/DKLSParty.ts` lines 456-473): fails
without an active sign session; otherwise calls the WASM `combine`
(abstracted by `combineImpl`), clears the session — it is consumed even
when the subsequent format check fails — and requires the result to be
a two-element array. -/
def partyCombine (combineImpl : Nat → List WireMessage → List (List Nat))
    (p : DKLSPartyState) (messages : List WireMessage) :
    Except SessionError (List Nat × List Nat) × DKLSPartyState :=
  match p.signSession with
  | none => (.error .noActiveSignSession, p)
  | some s =>
      let p' : DKLSPartyState := { p with signSession := none }
      match combineImpl s messages with
      | [r, s2] => (.ok (r, s2), p')
      | _ => (.error .invalidSignatureFormat, p')

/-- C1: one-shot enforcement.  After a successful
`signWithPreSignature`, a second call on the resulting state fails —
whether made with the updated record or with the stale original — and
the spent state is observable through the public `isConsumed`.  After a
successful `DKLSParty.combine`, the sign session is cleared, so a
second `combine` and any further `lastMessage` on that party fail with
'No active sign session', and the public `getSessionType` no longer
reports a signing session. -/
theorem c1_one_shot :
    (∀ (combineResult : Nat → List Nat → List Nat × List Nat)
        (st st' : PSMState) (ps ps' : PreSignature)
        (sig : List Nat × List Nat) (digest digest2 digest3 : List Nat),
      signWithPreSignature combineResult st ps digest = .ok (st', ps', sig) →
      signWithPreSignature combineResult st' ps' digest2 =
          .error .preSignatureAlreadyUsed ∧
        signWithPreSignature combineResult st' ps digest3 =
          .error .preSignatureAlreadyUsed ∧
        isConsumed st' ps.id = true) ∧
    (∀ (combineImpl : Nat → List WireMessage → List (List Nat))
        (lastMessageImpl : Nat → List Nat → WireMessage)
        (p p' : DKLSPartyState) (msgs msgs2 : List WireMessage)
        (r : List Nat × List Nat) (digest : List Nat),
      partyCombine combineImpl p msgs = (.ok r, p') →
      (partyCombine combineImpl p' msgs2).1 = .error .noActiveSignSession ∧
        (partyLastMessage lastMessageImpl p' digest).1 =
          .error .noActiveSignSession ∧
        getSessionType p' ≠ SessionKind.signing) := by
  constructor
  · intro combineResult st st' ps ps' sig digest digest2 digest3 h
    rw [signWithPreSignature] at h
    split at h
    · exact absurd h (by simp)
    · split at h
      · exact absurd h (by simp)
      · simp only [Except.ok.injEq, Prod.mk.injEq] at h
        obtain ⟨hst, hps, -⟩ := h
        have hmem : ps.id ∈ st'.consumedPreSignatures := by
          rw [← hst]
          exact List.mem_cons_self _ _
        have hmem' : ps'.id ∈ st'.consumedPreSignatures := by
          rw [← hps]
          exact hmem
        refine ⟨?_, ?_, ?_⟩
        · rw [signWithPreSignature, if_pos hmem']
        · rw [signWithPreSignature, if_pos hmem]
        · simp [isConsumed, hmem]
  · intro combineImpl lastMessageImpl p p' msgs msgs2 r digest h
    rw [partyCombine] at h
    split at h
    · exact absurd h (by simp)
    · rename_i s hs
      split at h
      · simp only [Prod.mk.injEq, Except.ok.injEq] at h
        obtain ⟨-, hp'⟩ := h
        have hnone : p'.signSession = none := by rw [← hp']
        refine ⟨?_, ?_, ?_⟩
        · rw [partyCombine, hnone]
        · rw [partyLastMessage, hnone]
        · rw [getSessionType]
          split
          · simp
          · rw [if_neg (by simp [hnone])]
            simp
      · exact absurd h (by simp)

theorem c1_one_shot_witness :
    (signWithPreSignature (fun _ _ => ([], [])) ⟨[7]⟩ ⟨7, 0, true⟩ [] =
        .error .preSignatureAlreadyUsed ∧
      signWithPreSignature (fun _ _ => ([], [])) ⟨[7]⟩ ⟨7, 0, false⟩ [] =
        .error .preSignatureAlreadyUsed ∧
      isConsumed ⟨[7]⟩ 7 = true) ∧
    ((partyCombine (fun _ _ => [[1], [2]]) ⟨none, none⟩ []).1 =
        .error .noActiveSignSession ∧
      (partyLastMessage (fun _ _ => ⟨0, none, []⟩) ⟨none, none⟩ []).1 =
        .error .noActiveSignSession ∧
      getSessionType ⟨none, none⟩ ≠ SessionKind.signing) :=
  ⟨c1_one_shot.1 (fun _ _ => ([], [])) ⟨[]⟩ ⟨[7]⟩ ⟨7, 0, false⟩ ⟨7, 0, true⟩
      ([], []) [] [] [] (by rfl),
   c1_one_shot.2 (fun _ _ => [[1], [2]]) (fun _ _ => ⟨0, none, []⟩)
      ⟨none, some 0⟩ ⟨none, none⟩ [] [] ([1], [2]) [] (by rfl)⟩

/-- Concrete instantiation with the non-contiguous party ids {0, 2, 5}:
the commitment of the party whose round-1 frame carries id 5 (batch
position 2) lands at index 5, and similarly for ids 0 and 2. -/
theorem c8_commitments_indexed_by_from_id_witness :
    dkgCommitmentsStage
        [⟨0, none, []⟩, ⟨2, none, []⟩, ⟨5, none, []⟩]
        [10, 20, 30] 5 = some 30 ∧
    dkgCommitmentsStage
        [⟨0, none, []⟩, ⟨2, none, []⟩, ⟨5, none, []⟩]
        [10, 20, 30] 2 = some 20 :=
  ⟨c8_commitments_indexed_by_from_id
      [⟨0, none, []⟩, ⟨2, none, []⟩, ⟨5, none, []⟩] [10, 20, 30]
      (by decide) 2 (by decide) (by decide),
   c8_commitments_indexed_by_from_id
      [⟨0, none, []⟩, ⟨2, none, []⟩, ⟨5, none, []⟩] [10, 20, 30]
      (by decide) 1 (by decide) (by decide)⟩

end BitShard
